import Mathlib

/-
Verification development for the AUXCTMailer record-enrichment and
rule-evaluation pipeline (`auxctmailer/context.py`, `auxctmailer/database.py`,
`auxctmailer/exceptions.py`).

Modelling conventions:
* Python `datetime` instants are modelled as integer seconds since the epoch
  1970-01-01 00:00:00; a calendar date is an integer day count from the same
  epoch (proleptic Gregorian, Hinnant's civil-date algorithms, which is what
  `datetime.date` arithmetic computes).  `timedelta.days` is floor division
  of the signed second difference by 86400, exactly as in CPython.
* The several `datetime.now()` calls inside one pipeline stage, which differ
  by microseconds, are modelled as a single instant `now : DT` carried as a
  parameter (year/month/day plus seconds-of-day).
* Python values stored in a member record are modelled by `PyVal`
  (strings, integers, booleans, `None`, and lists of course warnings); the
  numeric day-offset fields that pandas reads from the CSV are integers.
* A Python dict is an insertion-ordered association list with unique keys;
  assignment to an existing key updates it in place, assignment to a fresh
  key appends it.
* String helpers (`strip`, `lower`, `split`, `%m/%d/%Y` parsing) operate on
  the character list of the string, restricted to ASCII case mapping and the
  ASCII digits that the data actually contains.
-/

namespace AuxCT

/-! ## Calendar arithmetic -/

/-- Day count since 1970-01-01 of a proleptic-Gregorian civil date
(Hinnant's `days_from_civil`); models the date part of a Python
`datetime`. -/
def daysFromCivil (y m d : Int) : Int :=
  let yAdj := if m ≤ 2 then y - 1 else y
  let era := Int.fdiv yAdj 400
  let yoe := yAdj - era * 400
  let mp := if m > 2 then m - 3 else m + 9
  let doy := Int.fdiv (153 * mp + 2) 5 + d - 1
  let doe := yoe * 365 + Int.fdiv yoe 4 - Int.fdiv yoe 100 + doy
  era * 146097 + doe - 719468

/-- Inverse of `daysFromCivil`: the civil date `(year, month, day)` of a day
count (Hinnant's `civil_from_days`). -/
def civilFromDays (z : Int) : Int × Int × Int :=
  let zShift := z + 719468
  let era := Int.fdiv zShift 146097
  let doe := zShift - era * 146097
  let yoe := Int.fdiv (doe - Int.fdiv doe 1460 + Int.fdiv doe 36524 - Int.fdiv doe 146096) 365
  let y := yoe + era * 400
  let doy := doe - (365 * yoe + Int.fdiv yoe 4 - Int.fdiv yoe 100)
  let mp := Int.fdiv (5 * doy + 2) 153
  let d := doy - Int.fdiv (153 * mp + 2) 5 + 1
  let m := if mp < 10 then mp + 3 else mp - 9
  (if m ≤ 2 then y + 1 else y, m, d)

/-- Gregorian leap-year test, as used by `datetime`'s date validation. -/
def isLeapYear (y : Int) : Bool :=
  (Int.emod y 4 == 0 && Int.emod y 100 != 0) || Int.emod y 400 == 0

/-- Number of days in a month, as used by `datetime`'s date validation. -/
def daysInMonth (y m : Int) : Int :=
  if m = 2 then (if isLeapYear y then 29 else 28)
  else if m = 4 ∨ m = 6 ∨ m = 9 ∨ m = 11 then 30
  else 31

/-- An instant, as produced by `datetime.now()`: a civil date plus the
seconds elapsed since local midnight. -/
structure DT where
  year : Int
  month : Int
  day : Int
  sod : Int
deriving DecidableEq

/-- Day count of an instant's civil date. -/
def DT.dayNum (t : DT) : Int := daysFromCivil t.year t.month t.day

/-- Seconds since the epoch of an instant. -/
def DT.toSec (t : DT) : Int := t.dayNum * 86400 + t.sod

/-- A well-formed `datetime.now()` result: valid civil date and a
seconds-of-day in `[0, 86400)`. -/
def DT.Valid (t : DT) : Prop :=
  1 ≤ t.month ∧ t.month ≤ 12 ∧ 1 ≤ t.day ∧ t.day ≤ daysInMonth t.year t.month ∧
    0 ≤ t.sod ∧ t.sod < 86400

instance (t : DT) : Decidable t.Valid := by
  unfold DT.Valid
  infer_instance

/-! ## String helpers (kernel-computable, over the character list) -/

/-- The ASCII uppercase-to-lowercase table. -/
def lowerPairs : List (Char × Char) :=
  [('A', 'a'), ('B', 'b'), ('C', 'c'), ('D', 'd'), ('E', 'e'), ('F', 'f'),
   ('G', 'g'), ('H', 'h'), ('I', 'i'), ('J', 'j'), ('K', 'k'), ('L', 'l'),
   ('M', 'm'), ('N', 'n'), ('O', 'o'), ('P', 'p'), ('Q', 'q'), ('R', 'r'),
   ('S', 's'), ('T', 't'), ('U', 'u'), ('V', 'v'), ('W', 'w'), ('X', 'x'),
   ('Y', 'y'), ('Z', 'z')]

/-- ASCII lowercase conversion, as `str.lower()` performs on the ASCII
letters the data contains. -/
def asciiToLower (c : Char) : Char :=
  match lowerPairs.find? (fun p => p.1 == c) with
  | some p => p.2
  | none => c

/-- ASCII uppercase conversion, as `str.upper()` / `str.title()` perform on
the ASCII letters the data contains. -/
def asciiToUpper (c : Char) : Char :=
  match lowerPairs.find? (fun p => p.2 == c) with
  | some p => p.1
  | none => c

/-- The code points Python's `str.isspace()` accepts (CPython's Unicode
database), as closed ranges; `str.strip()` with no argument removes exactly
these characters. -/
def pySpaceRanges : List (Nat × Nat) :=
  [(9, 13), (28, 32), (133, 133), (160, 160), (5760, 5760), (8192, 8202),
   (8232, 8233), (8239, 8239), (8287, 8287), (12288, 12288)]

/-- Python `str.isspace()` on one character. -/
def pyIsSpace (c : Char) : Bool :=
  pySpaceRanges.any (fun r => r.1 ≤ c.toNat && c.toNat ≤ r.2)

/-- The code points Python's `str.isdigit()` accepts (CPython's Unicode
database: Numeric_Type Decimal or Digit), as closed ranges of code
points. -/
def pyDigitRanges : List (Nat × Nat) :=
  [(48, 57), (178, 179), (185, 185), (1632, 1641), (1776, 1785),
   (1984, 1993), (2406, 2415), (2534, 2543), (2662, 2671), (2790, 2799),
   (2918, 2927), (3046, 3055), (3174, 3183), (3302, 3311), (3430, 3439),
   (3558, 3567), (3664, 3673), (3792, 3801), (3872, 3881), (4160, 4169),
   (4240, 4249), (4969, 4977), (6112, 6121), (6160, 6169), (6470, 6479),
   (6608, 6618), (6784, 6793), (6800, 6809), (6992, 7001), (7088, 7097),
   (7232, 7241), (7248, 7257), (8304, 8304), (8308, 8313), (8320, 8329),
   (9312, 9320), (9332, 9340), (9352, 9360), (9450, 9450), (9461, 9469),
   (9471, 9471), (10102, 10110), (10112, 10120), (10122, 10130),
   (42528, 42537), (43216, 43225), (43264, 43273), (43472, 43481),
   (43504, 43513), (43600, 43609), (44016, 44025), (65296, 65305),
   (66720, 66729), (68160, 68163), (68912, 68921), (69216, 69224),
   (69714, 69722), (69734, 69743), (69872, 69881), (69942, 69951),
   (70096, 70105), (70384, 70393), (70736, 70745), (70864, 70873),
   (71248, 71257), (71360, 71369), (71472, 71481), (71904, 71913),
   (72016, 72025), (72784, 72793), (73040, 73049), (73120, 73129),
   (92768, 92777), (92864, 92873), (93008, 93017), (120782, 120831),
   (123200, 123209), (123632, 123641), (125264, 125273), (127232, 127242),
   (130032, 130041)]

/-- Python `str.isdigit()` on one character: ASCII digits and the other
Unicode digit characters. -/
def pyIsDigit (c : Char) : Bool :=
  pyDigitRanges.any (fun r => r.1 ≤ c.toNat && c.toNat ≤ r.2)

/-- Models Python `str.strip()`: remove leading and trailing whitespace
(the `str.isspace()` character class). -/
def trimChars (cs : List Char) : List Char :=
  ((cs.dropWhile pyIsSpace).reverse.dropWhile pyIsSpace).reverse

/-- `str.strip()` on strings. -/
def pyStrip (s : String) : String := ⟨trimChars s.data⟩

/-- `str.lower()`, for the ASCII letters the data contains. -/
def pyLower (s : String) : String := ⟨s.data.map asciiToLower⟩

/-- Split a character list on a separator character (Python `str.split(sep)`
semantics: `n` separators produce `n + 1` groups). -/
def splitOnChar (sep : Char) (cs : List Char) : List (List Char) :=
  match cs with
  | [] => [[]]
  | c :: rest =>
    let r := splitOnChar sep rest
    if c = sep then [] :: r
    else match r with
      | [] => [[c]]
      | g :: gs => (c :: g) :: gs

/-- Numeric value of a digit string. -/
def digitsToNat (cs : List Char) : Nat :=
  cs.foldl (fun acc c => acc * 10 + (c.toNat - 48)) 0

/-- Model of `datetime.strptime(s, "%m/%d/%Y")`: month and day of one or two
digits, year of exactly four digits, separated by `/`, the whole string
consumed, and the result a valid calendar date; `none` models the
`ValueError` raised on any other input. -/
def parseMMDDYYYY (s : String) : Option (Int × Int × Int) :=
  match splitOnChar '/' s.data with
  | [ms, ds, ys] =>
    if ms.length ≥ 1 && ms.length ≤ 2 && ms.all Char.isDigit
        && ds.length ≥ 1 && ds.length ≤ 2 && ds.all Char.isDigit
        && ys.length == 4 && ys.all Char.isDigit then
      let m : Int := (digitsToNat ms : Nat)
      let d : Int := (digitsToNat ds : Nat)
      let y : Int := (digitsToNat ys : Nat)
      if 1 ≤ m && m ≤ 12 && 1 ≤ d && d ≤ daysInMonth y m && 1 ≤ y then
        some (m, d, y)
      else none
    else none
  | _ => none

/-- Zero-pad a numeral to two digits (`%m`, `%d`). -/
def pad2 (n : Int) : String := if 0 ≤ n && n < 10 then "0" ++ toString n else toString n

/-- Zero-pad a numeral to four digits (`%Y`). -/
def pad4 (n : Int) : String :=
  if 0 ≤ n && n < 10 then "000" ++ toString n
  else if 0 ≤ n && n < 100 then "00" ++ toString n
  else if 0 ≤ n && n < 1000 then "0" ++ toString n
  else toString n

/-- `strftime("%m/%d/%Y")` of the civil date with the given day count. -/
def fmtDay (z : Int) : String :=
  let c := civilFromDays z
  pad2 c.2.1 ++ "/" ++ pad2 c.2.2 ++ "/" ++ pad4 c.1

/-- `strftime("%m/%d/%Y")` of an instant. -/
def DT.fmt (t : DT) : String := pad2 t.month ++ "/" ++ pad2 t.day ++ "/" ++ pad4 t.year

/-! ## Python values and dictionaries -/

/-- A course row of the courses CSV (`Code`, `Title`, `URL`,
`EnrollmentCode`). -/
structure Course where
  code : String
  title : String
  url : String
  enrollmentCode : String
deriving DecidableEq

/-- A course warning appended by `process_course_warnings`: either an entry
of `courses_overdue` or an entry of `courses_due_soon` (the `due_date` field
holds the `strftime("%m/%d/%Y")` text). -/
inductive Warning where
  | overdue (code title url enrollmentCode : String) (daysOverdue : Int)
  | dueSoon (code title url enrollmentCode : String) (daysUntilDue : Int) (dueDate : String)
deriving DecidableEq

/-- A Python value stored in a member-record dict. -/
inductive PyVal where
  | str (s : String)
  | int (n : Int)
  | bool (b : Bool)
  | pyNone
  | warningList (ws : List Warning)
deriving DecidableEq

/-- Python truthiness of a value. -/
def pyTruthy : PyVal → Bool
  | .str s => s != ""
  | .int n => n != 0
  | .bool b => b
  | .pyNone => false
  | .warningList ws => !ws.isEmpty

/-- Python `str(v)` for the values the pipeline stringifies. -/
def pyStr : PyVal → String
  | .str s => s
  | .int n => toString n
  | .bool b => if b then "True" else "False"
  | .pyNone => "None"
  | .warningList _ => "[]"

/-- A Python dict: insertion-ordered association list with unique keys. -/
abbrev Dict := List (String × PyVal)

/-- `d.get(k)`: the value at a key, `none` when absent. -/
def dget (m : Dict) (k : String) : Option PyVal :=
  match m with
  | [] => none
  | p :: rest => if p.1 = k then some p.2 else dget rest k

/-- `d[k] = v`: update the key in place when present, append when absent. -/
def dset (m : Dict) (k : String) (v : PyVal) : Dict :=
  match m with
  | [] => [(k, v)]
  | p :: rest => if p.1 = k then (k, v) :: rest else p :: dset rest k v

/-- `d.get(k1) or d.get(k2)`: the first value when truthy, otherwise the
second lookup (lines 103-104 and 84 of `context.py`). -/
def getOr (data : Dict) (k1 k2 : String) : Option PyVal :=
  match dget data k1 with
  | some v => if pyTruthy v then some v else dget data k2
  | none => dget data k2

/-! ## `normalize_keys` (context.py lines 14-34) -/

/-- The character-by-character effect of
`key.lower().replace(' ', '_').replace('#', 'num').replace('?', '').replace('/', '_')`
after the initial `lower()`. -/
def normKeyStep (c : Char) : List Char :=
  if c = ' ' then ['_']
  else if c = '#' then ['n', 'u', 'm']
  else if c = '?' then []
  else if c = '/' then ['_']
  else [c]

/-- The character class kept by `re.sub(r'[^\w_]', '', ...)` (ASCII word
characters). -/
def keepChar (c : Char) : Bool := c.isAlphanum || c = '_'

/-- The character-list form of the key-normalization of lines 29-31:
`lower()`, the four replacements, then `re.sub(r'[^\w_]', '', ...)`. -/
def normChars (cs : List Char) : List Char :=
  (((cs.map asciiToLower).map normKeyStep).flatten).filter keepChar

/-- The normalized alias of one key. -/
def normKey (k : String) : String := ⟨normChars k.data⟩

/-- `normalize_keys`: copy the dict, then add `normKey k ↦ v` for every
entry `(k, v)` of the input, in iteration order. -/
def normalizeKeys (d : Dict) : Dict :=
  d.foldl (fun acc p => dset acc (normKey p.1) p.2) d

/-! ## `add_date_context` (context.py lines 37-70) -/

/-- Reference-date resolution shared by `add_date_context` and
`process_course_warnings`: the parsed extraction date at midnight, falling
back to `datetime.now()` when the argument is absent, empty or fails to
parse.  Result in epoch seconds. -/
def resolveReferenceSec (extraction : Option String) (now : DT) : Int :=
  match extraction with
  | some s =>
    if s != "" then
      match parseMMDDYYYY s with
      | some (m, d, y) => daysFromCivil y m d * 86400
      | none => now.toSec
    else now.toSec
  | none => now.toSec

/-- `add_date_context`. -/
def addDateContext (data : Dict) (extraction : Option String) (now : DT) : Dict :=
  let referenceSec := resolveReferenceSec extraction now
  let d1 := dset data "current_year" (.int now.year)
  let d2 := dset d1 "current_year_start" (.str ("1/1/" ++ toString now.year))
  let d3 := dset d2 "current_year_end" (.str ("12/31/" ++ toString now.year))
  let echo : String :=
    match extraction with
    | some s => if s != "" then s else now.fmt
    | none => now.fmt
  let d4 := dset d3 "extraction_date" (.str echo)
  dset d4 "extraction_plus_365" (.str (fmtDay (Int.fdiv (referenceSec + 365 * 86400) 86400)))

/-! ## `process_name_formatting` (context.py lines 73-90) -/

/-- Python `str.isupper()` over ASCII: some cased character and no lowercase
character. -/
def pyIsUpper (s : String) : Bool :=
  s.data.any Char.isAlpha && !(s.data.any Char.isLower)

/-- Python `str.title()` over ASCII: uppercase a letter after a non-letter,
lowercase a letter after a letter. -/
def pyTitleChars : Bool → List Char → List Char
  | _, [] => []
  | prevAlpha, c :: cs =>
    (if c.isAlpha then (if prevAlpha then asciiToLower c else asciiToUpper c) else c)
      :: pyTitleChars c.isAlpha cs

/-- Python `str.title()`. -/
def pyTitle (s : String) : String := ⟨pyTitleChars false s.data⟩

/-- `process_name_formatting`. -/
def processNameFormatting (data : Dict) : Dict :=
  let firstName := getOr data "first_name" "First Name"
  let tc : PyVal :=
    match firstName with
    | some (.str s) => if s != "" && pyIsUpper s then .str (pyTitle s) else .str s
    | some v => v
    | none => .pyNone
  dset data "first_name_titlecase" tc

/-! ## `check_uniform_inspection` (context.py lines 93-138) -/

/-- The exemption test of lines 107-109: the looked-up flag is present and
its stripped string form is `"1"` or `"1.0"`. -/
def isExemptVal : Option PyVal → Bool
  | some v => pyStrip (pyStr v) == "1" || pyStrip (pyStr v) == "1.0"
  | none => false

/-- The `elif` guard of line 117: the looked-up inspection value is truthy,
its stripped string form is non-empty, and its lowercased string form is not
`"nan"`. -/
def inspGuard (v : PyVal) : Bool :=
  pyTruthy v && (pyStrip (pyStr v) != "") && (pyLower (pyStr v) != "nan")

/-- `check_uniform_inspection`. -/
def checkUniformInspection (data : Dict) (now : DT) : Dict :=
  let uInsp := getOr data "uniform_inspection" "Uniform Inspection"
  let uEx := getOr data "uniform_exempt" "Uniform Exempt"
  let isExempt := isExemptVal uEx
  let res : Option PyVal × Bool :=
    if isExempt then (uInsp, false)
    else match uInsp with
      | some v =>
        if inspGuard v then
          match parseMMDDYYYY (pyStrip (pyStr v)) with
          | some (m, d, y) =>
            (some v, decide (daysFromCivil y m d < daysFromCivil now.year 1 1))
          | none => (none, true)
        else (none, true)
      | none => (none, true)
  dset (dset (dset data "uniform_inspection" (res.1.getD .pyNone))
      "uniform_exempt" (.bool isExempt))
    "needs_uniform_inspection" (.bool res.2)

/-! ## `process_course_warnings` (context.py lines 141-239) -/

/-- The three hard-coded course codes of line 196. -/
def specialCodes : List String := ["SP_100643", "CRA_502319", "SAPRR_502379"]

/-- The value of `int(float(data.get(code)))` for the values a pandas
numeric course column holds: an integer when present and numeric, `none`
when absent, `NaN` or non-numeric (the skipped `except` path). -/
def pyToDays : PyVal → Option Int
  | .int n => some n
  | _ => none

/-- Classification of one course row (lines 180-225): the special-case
branch for the three designated codes with a zero offset, then the
overdue / due-soon / no-warning split on
`days_from_today = (reference + days) - now` in floored days. -/
def classifyCourse (refSec : Int) (now : DT) (c : Course) (dayOffset : Option Int) :
    Option Warning :=
  match dayOffset with
  | none => none
  | some days =>
    let code := pyStrip c.code
    let dueSec := refSec + days * 86400
    let daysFromToday := Int.fdiv (dueSec - now.toSec) 86400
    if specialCodes.contains code && days == 0 then
      let yearEnd := daysFromCivil now.year 12 31
      some (.dueSoon code c.title c.url c.enrollmentCode
        (Int.fdiv (yearEnd * 86400 - now.toSec) 86400) (fmtDay yearEnd))
    else if daysFromToday < 0 then
      some (.overdue code c.title c.url c.enrollmentCode |daysFromToday|)
    else if 0 ≤ daysFromToday && daysFromToday ≤ 365 then
      some (.dueSoon code c.title c.url c.enrollmentCode daysFromToday
        (fmtDay (Int.fdiv dueSec 86400)))
    else none

/-- The loop of lines 173-228: classify each course row in table order and
collect the overdue and due-soon lists. -/
def processCourses (refSec : Int) (now : DT) (get : String → Option Int) :
    List Course → List Warning × List Warning
  | [] => ([], [])
  | c :: rest =>
    let tail := processCourses refSec now get rest
    match classifyCourse refSec now c (get (pyStrip c.code)) with
    | none => tail
    | some w =>
      match w with
      | .overdue _ _ _ _ _ => (w :: tail.1, tail.2)
      | .dueSoon _ _ _ _ _ _ => (tail.1, w :: tail.2)

/-- The courses CSV as seen by `process_course_warnings`: `present` is false
when the path is absent, the file is missing, or it fails to parse (all of
which yield empty warning lists). -/
structure CourseTable where
  present : Bool
  courses : List Course

/-- `process_course_warnings` on a member dict. -/
def processCourseWarningsDict (data : Dict) (table : CourseTable)
    (extraction : Option String) (now : DT) : Dict :=
  let refSec := resolveReferenceSec extraction now
  let r :=
    if table.present then
      processCourses refSec now (fun code => (dget data code).bind pyToDays) table.courses
    else ([], [])
  dset (dset (dset (dset data "courses_overdue" (.warningList r.1))
        "courses_due_soon" (.warningList r.2))
      "has_overdue_courses" (.bool (decide (0 < r.1.length))))
    "has_due_soon_courses" (.bool (decide (0 < r.2.length)))

/-- `normalize_template_context` (context.py lines 242-274): the fixed stage
order. -/
def normalizeTemplateContext (data : Dict) (table : CourseTable)
    (extraction : Option String) (now : DT) : Dict :=
  processCourseWarningsDict
    (checkUniformInspection
      (processNameFormatting
        (addDateContext (normalizeKeys data) extraction now))
      now)
    table extraction now

/-! ## `MemberDatabase` (database.py) -/

/-- A raised Python exception, by class. -/
inductive PyError where
  | fileNotFoundError (msg : String)
  | memberDataError (msg : String)
deriving DecidableEq

/-- The existence check opening `MemberDatabase.load` (database.py lines
207-208): a missing training CSV raises
`FileNotFoundError("Training database not found: <path>")`; an existing one
proceeds. -/
def memberDatabaseLoadCheck (trainingCsvExists : Bool) (trainingCsvPath : String) :
    Except PyError Unit :=
  if trainingCsvExists then .ok ()
  else .error (.fileNotFoundError ("Training database not found: " ++ trainingCsvPath))

/-- `MemberDatabase._prettify_unit_number` (database.py lines 75-97): strip,
then require exactly 7 characters all accepted by `str.isdigit()`. -/
def prettifyUnitNumber (v : PyVal) : Option String :=
  match v with
  | .str s =>
    let t := pyStrip s
    if t.length == 7 && t.data.all pyIsDigit then
      some (String.mk (t.data.take 3) ++ "-" ++ String.mk ((t.data.drop 3).take 2)
        ++ "-" ++ String.mk ((t.data.drop 5).take 2))
    else none
  | _ => none

/-! ## Dictionary lemmas -/

/-- Keys of a dict, in insertion order. -/
def keysOf (m : Dict) : List String := m.map Prod.fst

theorem dget_dset (m : Dict) (k1 k : String) (v : PyVal) :
    dget (dset m k1 v) k = if k1 = k then some v else dget m k := by
  induction m with
  | nil => simp [dget, dset]
  | cons p rest ih =>
    simp only [dset]
    by_cases hp : p.1 = k1
    · rw [if_pos hp]
      by_cases hk : k1 = k
      · simp [dget, hk]
      · have hpk : ¬p.1 = k := fun h => hk (hp.symm.trans h)
        simp [dget, hk, hpk]
    · rw [if_neg hp]
      by_cases hpk : p.1 = k
      · have hk : ¬k1 = k := fun h => hp (hpk.trans h.symm)
        simp [dget, hpk, hk]
      · simp [dget, hpk, ih]

theorem dget_isSome_dset (m : Dict) (k1 k : String) (v : PyVal)
    (h : (dget m k).isSome = true) : (dget (dset m k1 v) k).isSome = true := by
  rw [dget_dset]
  by_cases hk : k1 = k <;> simp [hk, h]

/-- The `normalize_keys` loop as a sequence of dict writes. -/
def applyWrites (m : Dict) (ws : List (String × PyVal)) : Dict :=
  ws.foldl (fun acc w => dset acc w.1 w.2) m

/-- The writes the `normalize_keys` loop performs: one per input entry, at
the normalized key. -/
def writesOf (l : Dict) : List (String × PyVal) :=
  l.map (fun p => (normKey p.1, p.2))

theorem normalizeKeys_eq_applyWrites (d : Dict) :
    normalizeKeys d = applyWrites d (writesOf d) := by
  unfold normalizeKeys applyWrites writesOf
  rw [List.foldl_map]

/-- The value written last to a key by a sequence of writes, if any. -/
def lastVal (ws : List (String × PyVal)) (k : String) : Option PyVal :=
  match ws with
  | [] => none
  | w :: rest => (lastVal rest k).or (if w.1 = k then some w.2 else none)

theorem dget_applyWrites (ws : List (String × PyVal)) (m : Dict) (k : String) :
    dget (applyWrites m ws) k = (lastVal ws k).or (dget m k) := by
  induction ws generalizing m with
  | nil => rfl
  | cons w rest ih =>
    show dget (applyWrites (dset m w.1 w.2) rest) k = _
    rw [ih, dget_dset, lastVal]
    rcases lastVal rest k with _ | v
    · by_cases hk : w.1 = k <;> simp [hk, Option.or]
    · simp [Option.or]

theorem lastVal_append (a b : List (String × PyVal)) (k : String) :
    lastVal (a ++ b) k = (lastVal b k).or (lastVal a k) := by
  induction a with
  | nil =>
    rw [List.nil_append]
    cases h : lastVal b k <;> simp [lastVal, h, Option.or]
  | cons w rest ih =>
    show (lastVal (rest ++ b) k).or _ = _
    rw [ih, lastVal]
    cases lastVal b k <;> cases lastVal rest k <;> simp [Option.or]

theorem lastVal_mem_keys (l : List (String × PyVal)) (k : String) (v : PyVal)
    (h : lastVal l k = some v) : k ∈ l.map Prod.fst := by
  induction l with
  | nil => simp [lastVal] at h
  | cons w rest ih =>
    rw [lastVal] at h
    rcases hr : lastVal rest k with _ | u
    · rw [hr] at h
      by_cases hk : w.1 = k
      · simp [hk]
      · simp [hk, Option.or] at h
    · rw [hr] at h
      simp only [Option.or] at h
      cases h
      exact List.mem_cons_of_mem _ (ih hr)

theorem lastVal_eq_none_of_not_mem (l : List (String × PyVal)) (k : String)
    (h : k ∉ l.map Prod.fst) : lastVal l k = none := by
  rcases hv : lastVal l k with _ | v
  · rfl
  · exact absurd (lastVal_mem_keys l k v hv) h

theorem lastVal_of_mem_nodup (l : List (String × PyVal)) (k : String) (v : PyVal)
    (hnd : (l.map Prod.fst).Nodup) (hm : (k, v) ∈ l) : lastVal l k = some v := by
  induction l with
  | nil => simp at hm
  | cons w rest ih =>
    rcases List.mem_cons.mp hm with heq | htl
    · have hk : w.1 = k := by rw [← heq]
      have hkr : k ∉ rest.map Prod.fst := by
        rw [← hk]
        exact (List.nodup_cons.mp hnd).1
      rw [lastVal, lastVal_eq_none_of_not_mem rest k hkr, hk, ← heq]
      simp [Option.or]
    · rw [lastVal, ih (List.nodup_cons.mp hnd).2 htl]
      simp [Option.or]

/-! ## Structure of `applyWrites`: updated originals plus appended news -/

/-- The original entries of a dict after a write sequence: each value is
replaced by the last write to its key, if any. -/
def updVals (m : Dict) (ws : List (String × PyVal)) : Dict :=
  m.map (fun p => (p.1, (lastVal ws p.1).getD p.2))

/-- The entries a write sequence appends beyond an existing key set `ks`:
first-write order, last-write values. -/
def newPart (ks : List String) : List (String × PyVal) → Dict
  | [] => []
  | w :: rest =>
    if w.1 ∈ ks then newPart ks rest
    else (w.1, (lastVal rest w.1).getD w.2) :: newPart (w.1 :: ks) rest

theorem updVals_nil (m : Dict) : updVals m [] = m := by
  unfold updVals
  have h : ∀ p ∈ m, (p.1, (lastVal [] p.1).getD p.2) = p := by
    intro p _
    simp [lastVal]
  rw [List.map_congr_left h, List.map_id']

theorem keysOf_updVals (m : Dict) (ws : List (String × PyVal)) :
    keysOf (updVals m ws) = keysOf m := by
  unfold keysOf updVals
  rw [List.map_map]
  rfl

theorem or_getD (a b : Option PyVal) (d : PyVal) :
    (a.or b).getD d = a.getD (b.getD d) := by
  cases a <;> simp [Option.or]

theorem updVals_cons (m : Dict) (w : String × PyVal) (rest : List (String × PyVal)) :
    updVals m (w :: rest) =
      updVals (m.map (fun p => if p.1 = w.1 then (w.1, w.2) else p)) rest := by
  unfold updVals
  rw [List.map_map]
  apply List.map_congr_left
  intro p _
  by_cases hp : p.1 = w.1
  · simp [Function.comp, hp, lastVal, or_getD]
  · have hw : ¬w.1 = p.1 := fun h => hp h.symm
    simp [Function.comp, hp, lastVal, or_getD, hw]

theorem updVals_cons_not_mem (m : Dict) (w : String × PyVal)
    (rest : List (String × PyVal)) (h : w.1 ∉ keysOf m) :
    updVals m (w :: rest) = updVals m rest := by
  unfold updVals
  apply List.map_congr_left
  intro p hp
  have hne : ¬w.1 = p.1 := by
    intro heq
    exact h (heq ▸ List.mem_map_of_mem Prod.fst hp)
  simp [lastVal, or_getD, hne]

theorem newPart_cons (ks : List String) (w : String × PyVal)
    (rest : List (String × PyVal)) :
    newPart ks (w :: rest) =
      if w.1 ∈ ks then newPart ks rest
      else (w.1, (lastVal rest w.1).getD w.2) :: newPart (w.1 :: ks) rest := rfl

theorem newPart_congr (ks1 ks2 : List String) (ws : List (String × PyVal))
    (h : ∀ x, x ∈ ks1 ↔ x ∈ ks2) : newPart ks1 ws = newPart ks2 ws := by
  induction ws generalizing ks1 ks2 with
  | nil => rfl
  | cons w rest ih =>
    unfold newPart
    by_cases hw : w.1 ∈ ks1
    · rw [if_pos hw, if_pos ((h w.1).mp hw)]
      exact ih ks1 ks2 h
    · rw [if_neg hw, if_neg (fun hx => hw ((h w.1).mpr hx))]
      rw [ih (w.1 :: ks1) (w.1 :: ks2) (by intro x; simp [h x])]

theorem dset_update (m : Dict) (k : String) (v : PyVal)
    (hnd : (keysOf m).Nodup) (hk : k ∈ keysOf m) :
    dset m k v = m.map (fun p => if p.1 = k then (k, v) else p) := by
  induction m with
  | nil => simp [keysOf] at hk
  | cons p rest ih =>
    have hnd2 := List.nodup_cons.mp hnd
    by_cases hp : p.1 = k
    · have hrest : ∀ q ∈ rest, (if q.1 = k then (k, v) else q) = q := by
        intro q hq
        have : ¬q.1 = k := by
          intro heq
          apply hnd2.1
          rw [hp, ← heq]
          exact List.mem_map_of_mem Prod.fst hq
        rw [if_neg this]
      simp only [dset, List.map, if_pos hp]
      rw [List.map_congr_left hrest, List.map_id']
    · have hk2 : k ∈ keysOf rest := by
        rcases List.mem_cons.mp hk with h1 | h2
        · exact absurd h1.symm hp
        · exact h2
      simp only [dset, List.map, if_neg hp]
      rw [ih hnd2.2 hk2]

theorem dset_append_of_not_mem (m : Dict) (k : String) (v : PyVal)
    (h : k ∉ keysOf m) : dset m k v = m ++ [(k, v)] := by
  induction m with
  | nil => rfl
  | cons p rest ih =>
    have hp : ¬p.1 = k := by
      intro heq
      exact h (heq ▸ List.mem_map_of_mem Prod.fst (List.mem_cons_self p rest))
    have hr : k ∉ keysOf rest := by
      intro hx
      exact h (List.mem_cons_of_mem _ hx)
    simp only [dset, if_neg hp, List.cons_append]
    rw [ih hr]

theorem keysOf_append (a b : Dict) : keysOf (a ++ b) = keysOf a ++ keysOf b :=
  List.map_append _ a b

theorem keysOf_cons (p : String × PyVal) (l : Dict) :
    keysOf (p :: l) = p.1 :: keysOf l := rfl

/-- Decomposition of the `normalize_keys` fold: the result is the original
entries with last-write values, followed by the genuinely new entries. -/
theorem applyWrites_decomp (ws : List (String × PyVal)) (m : Dict)
    (hnd : (keysOf m).Nodup) :
    applyWrites m ws = updVals m ws ++ newPart (keysOf m) ws := by
  induction ws generalizing m with
  | nil => simp [applyWrites, updVals_nil, newPart]
  | cons w rest ih =>
    show applyWrites (dset m w.1 w.2) rest = _
    by_cases hm : w.1 ∈ keysOf m
    · rw [dset_update m w.1 w.2 hnd hm]
      have hkeys2 :
          keysOf (m.map (fun p => if p.1 = w.1 then (w.1, w.2) else p)) = keysOf m := by
        unfold keysOf
        rw [List.map_map]
        apply List.map_congr_left
        intro p _
        by_cases hp : p.1 = w.1 <;> simp [Function.comp, hp]
      rw [ih _ (hkeys2 ▸ hnd), hkeys2, updVals_cons, newPart_cons, if_pos hm]
    · rw [dset_append_of_not_mem m w.1 w.2 hm]
      have hnd2 : (keysOf (m ++ [(w.1, w.2)])).Nodup := by
        rw [keysOf_append]
        apply List.Nodup.append hnd (by simp [keysOf])
        intro x hx hy
        simp [keysOf] at hy
        exact hm (hy ▸ hx)
      rw [ih _ hnd2]
      have hupd : updVals (m ++ [(w.1, w.2)]) rest =
          updVals m rest ++ [(w.1, (lastVal rest w.1).getD w.2)] := by
        unfold updVals
        rw [List.map_append]
        rfl
      have hnp : newPart (keysOf m ++ keysOf [(w.1, w.2)]) rest =
          newPart (w.1 :: keysOf m) rest := by
        apply newPart_congr
        intro x
        simp [keysOf]
        tauto
      rw [hupd, keysOf_append, hnp, updVals_cons_not_mem m w rest hm,
        newPart_cons, if_neg hm, List.append_assoc, List.singleton_append]

theorem newPart_nil_of_mem (ks : List String) (ws : List (String × PyVal))
    (h : ∀ w ∈ ws, w.1 ∈ ks) : newPart ks ws = [] := by
  induction ws with
  | nil => rfl
  | cons w rest ih =>
    rw [newPart_cons, if_pos (h w (List.mem_cons_self w rest))]
    exact ih (fun x hx => h x (List.mem_cons_of_mem w hx))

theorem newPart_keys (ks : List String) (ws : List (String × PyVal)) :
    ∀ q ∈ newPart ks ws, q.1 ∈ ws.map Prod.fst ∧ q.1 ∉ ks := by
  induction ws generalizing ks with
  | nil => intro q hq; simp [newPart] at hq
  | cons w rest ih =>
    intro q hq
    rw [newPart_cons] at hq
    by_cases hw : w.1 ∈ ks
    · rw [if_pos hw] at hq
      obtain ⟨h1, h2⟩ := ih ks q hq
      exact ⟨List.mem_cons_of_mem _ h1, h2⟩
    · rw [if_neg hw] at hq
      rcases List.mem_cons.mp hq with heq | htl
      · subst heq
        exact ⟨List.mem_cons_self _ _, hw⟩
      · obtain ⟨h1, h2⟩ := ih (w.1 :: ks) q htl
        exact ⟨List.mem_cons_of_mem _ h1, fun hx => h2 (List.mem_cons_of_mem _ hx)⟩

theorem newPart_keys_nodup (ks : List String) (ws : List (String × PyVal)) :
    (keysOf (newPart ks ws)).Nodup := by
  induction ws generalizing ks with
  | nil => simp [newPart, keysOf]
  | cons w rest ih =>
    rw [newPart_cons]
    by_cases hw : w.1 ∈ ks
    · rw [if_pos hw]; exact ih ks
    · rw [if_neg hw]
      show (w.1 :: keysOf (newPart (w.1 :: ks) rest)).Nodup
      rw [List.nodup_cons]
      refine ⟨?_, ih (w.1 :: ks)⟩
      intro hx
      obtain ⟨q, hq, hq1⟩ := List.mem_map.mp hx
      exact (newPart_keys (w.1 :: ks) rest q hq).2 (hq1 ▸ List.mem_cons_self _ _)

theorem newPart_target_mem (ks : List String) (ws : List (String × PyVal)) :
    ∀ w ∈ ws, w.1 ∈ ks ∨ w.1 ∈ keysOf (newPart ks ws) := by
  induction ws generalizing ks with
  | nil => intro w hw; simp at hw
  | cons w0 rest ih =>
    intro w hw
    rw [newPart_cons]
    by_cases h0 : w0.1 ∈ ks
    · rw [if_pos h0]
      rcases List.mem_cons.mp hw with heq | htl
      · exact Or.inl (heq ▸ h0)
      · exact ih ks w htl
    · rw [if_neg h0]
      rcases List.mem_cons.mp hw with heq | htl
      · subst heq
        refine Or.inr ?_
        rw [keysOf_cons]
        exact List.mem_cons_self _ _
      · rcases ih (w0.1 :: ks) w htl with hks | hnp
        · rcases List.mem_cons.mp hks with he | hk
          · refine Or.inr ?_
            rw [keysOf_cons]
            exact List.mem_cons.mpr (Or.inl he)
          · exact Or.inl hk
        · refine Or.inr ?_
          rw [keysOf_cons]
          exact List.mem_cons_of_mem _ hnp

/-! ## The last original entry writing to a given key -/

/-- The last entry of `l` whose normalized key is `K`. -/
def lastWith (l : Dict) (K : String) : Option (String × PyVal) :=
  match l with
  | [] => none
  | q :: rest => (lastWith rest K).or (if normKey q.1 = K then some q else none)

theorem lastVal_writesOf (l : Dict) (K : String) :
    lastVal (writesOf l) K = (lastWith l K).map (fun q => q.2) := by
  induction l with
  | nil => rfl
  | cons q rest ih =>
    show (lastVal (writesOf rest) K).or _ = _
    rw [ih, lastWith]
    cases lastWith rest K
    · by_cases hq : normKey q.1 = K <;> simp [hq, Option.or]
    · simp [Option.or]

theorem lastVal_writesOf_updVals (l : Dict) (wd : List (String × PyVal)) (K : String) :
    lastVal (writesOf (updVals l wd)) K =
      (lastWith l K).map (fun q => (lastVal wd q.1).getD q.2) := by
  induction l with
  | nil => rfl
  | cons q rest ih =>
    show (lastVal (writesOf (updVals rest wd)) K).or _ = _
    rw [ih, lastWith]
    cases lastWith rest K
    · by_cases hq : normKey q.1 = K <;> simp [hq, Option.or]
    · simp [Option.or]

theorem lastWith_mem (l : Dict) (K : String) (q : String × PyVal)
    (h : lastWith l K = some q) : q ∈ l ∧ normKey q.1 = K := by
  induction l with
  | nil => simp [lastWith] at h
  | cons p rest ih =>
    rw [lastWith] at h
    rcases hr : lastWith rest K with _ | r
    · rw [hr] at h
      simp only [Option.or] at h
      by_cases hp : normKey p.1 = K
      · rw [if_pos hp] at h
        cases h
        exact ⟨List.mem_cons_self _ _, hp⟩
      · rw [if_neg hp] at h
        cases h
    · rw [hr] at h
      simp only [Option.or] at h
      cases h
      obtain ⟨h1, h2⟩ := ih hr
      exact ⟨List.mem_cons_of_mem _ h1, h2⟩

/-! ## Idempotence of the key normalization -/

theorem asciiToLower_cases (c : Char) :
    asciiToLower c = c ∨ asciiToLower c ∈ lowerPairs.map Prod.snd := by
  unfold asciiToLower
  rcases h : lowerPairs.find? (fun p => p.1 == c) with _ | p
  · simp [h]
  · simp only [h]
    exact Or.inr (List.mem_map_of_mem Prod.snd (List.mem_of_find?_eq_some h))

theorem asciiToLower_fix_lower :
    ∀ c ∈ lowerPairs.map Prod.snd, asciiToLower c = c := by decide

theorem asciiToLower_idem (c : Char) :
    asciiToLower (asciiToLower c) = asciiToLower c := by
  rcases asciiToLower_cases c with h | h
  · rw [h, h]
  · exact asciiToLower_fix_lower _ h

theorem mem_normKeyStep (c x : Char) (h : c ∈ normKeyStep x) :
    c = '_' ∨ c = 'n' ∨ c = 'u' ∨ c = 'm' ∨ c = x := by
  unfold normKeyStep at h
  split_ifs at h <;> simp_all
  tauto

theorem normChars_char_fixed (c : Char) (hk : keepChar c = true)
    (ho : c = '_' ∨ c = 'n' ∨ c = 'u' ∨ c = 'm' ∨ (∃ x, c = asciiToLower x)) :
    asciiToLower c = c ∧ normKeyStep c = [c] := by
  rcases ho with rfl | rfl | rfl | rfl | ⟨x, rfl⟩
  · exact ⟨by decide, by decide⟩
  · exact ⟨by decide, by decide⟩
  · exact ⟨by decide, by decide⟩
  · exact ⟨by decide, by decide⟩
  · constructor
    · exact asciiToLower_idem x
    · have h1 : ¬asciiToLower x = ' ' := by
        intro he
        rw [he] at hk
        exact absurd hk (by decide)
      have h2 : ¬asciiToLower x = '#' := by
        intro he
        rw [he] at hk
        exact absurd hk (by decide)
      have h3 : ¬asciiToLower x = '?' := by
        intro he
        rw [he] at hk
        exact absurd hk (by decide)
      have h4 : ¬asciiToLower x = '/' := by
        intro he
        rw [he] at hk
        exact absurd hk (by decide)
      simp [normKeyStep, h1, h2, h3, h4]

theorem mem_normChars (cs : List Char) (c : Char) (h : c ∈ normChars cs) :
    keepChar c = true ∧ (c = '_' ∨ c = 'n' ∨ c = 'u' ∨ c = 'm' ∨ (∃ x, c = asciiToLower x)) := by
  unfold normChars at h
  have hk := List.of_mem_filter h
  refine ⟨hk, ?_⟩
  have hf := List.mem_of_mem_filter h
  obtain ⟨l, hl, hcl⟩ := List.mem_flatten.mp hf
  obtain ⟨x, hx, hxl⟩ := List.mem_map.mp hl
  obtain ⟨x0, _, hx0⟩ := List.mem_map.mp hx
  rcases mem_normKeyStep c x (hxl ▸ hcl) with h1 | h1 | h1 | h1 | h1
  · exact Or.inl h1
  · exact Or.inr (Or.inl h1)
  · exact Or.inr (Or.inr (Or.inl h1))
  · exact Or.inr (Or.inr (Or.inr (Or.inl h1)))
  · exact Or.inr (Or.inr (Or.inr (Or.inr ⟨x0, by rw [h1, hx0]⟩)))

theorem flatten_map_singleton (l : List Char) :
    (l.map (fun c => [c])).flatten = l := by
  induction l with
  | nil => rfl
  | cons c cs ih => simp [ih]

theorem normChars_idem (cs : List Char) : normChars (normChars cs) = normChars cs := by
  have H : ∀ c ∈ normChars cs, asciiToLower c = c ∧ normKeyStep c = [c] ∧ keepChar c = true := by
    intro c hc
    obtain ⟨hk, ho⟩ := mem_normChars cs c hc
    obtain ⟨h1, h2⟩ := normChars_char_fixed c hk ho
    exact ⟨h1, h2, hk⟩
  show ((((normChars cs).map asciiToLower).map normKeyStep).flatten).filter keepChar = _
  rw [List.map_congr_left (fun c hc => (H c hc).1), List.map_id']
  rw [List.map_congr_left (fun c hc => (H c hc).2.1)]
  rw [flatten_map_singleton]
  exact List.filter_eq_self.mpr (fun c hc => (H c hc).2.2)

theorem normKey_idem (k : String) : normKey (normKey k) = normKey k :=
  congrArg String.mk (normChars_idem k.data)

/-! ## Idempotence of `normalize_keys` -/

theorem updVals_eq_self (m : Dict) (ws : List (String × PyVal))
    (h : ∀ p ∈ m, (lastVal ws p.1).getD p.2 = p.2) : updVals m ws = m := by
  unfold updVals
  have h2 : ∀ p ∈ m, (p.1, (lastVal ws p.1).getD p.2) = p := by
    intro p hp
    rw [h p hp]
  rw [List.map_congr_left h2, List.map_id']

theorem writesOf_append (a b : Dict) : writesOf (a ++ b) = writesOf a ++ writesOf b :=
  List.map_append _ a b

theorem writesOf_fixed (l : Dict) (h : ∀ p ∈ l, normKey p.1 = p.1) :
    writesOf l = l := by
  unfold writesOf
  have h2 : ∀ p ∈ l, (normKey p.1, p.2) = p := by
    intro p hp
    rw [h p hp]
  rw [List.map_congr_left h2, List.map_id']

theorem normalizeKeys_entry_stable (d : Dict) (hnd : (keysOf d).Nodup) :
    ∀ p ∈ normalizeKeys d, (lastVal (writesOf (normalizeKeys d)) p.1).getD p.2 = p.2 := by
  intro p hp
  have hdec := applyWrites_decomp (writesOf d) d hnd
  rw [normalizeKeys_eq_applyWrites] at hp ⊢
  rw [hdec] at hp ⊢
  set wd := writesOf d with hwd
  set P := newPart (keysOf d) wd with hP
  have hPfix : ∀ q ∈ P, normKey q.1 = q.1 := by
    intro q hq
    obtain ⟨h1, _⟩ := newPart_keys (keysOf d) wd q hq
    obtain ⟨w, hw, hw1⟩ := List.mem_map.mp h1
    obtain ⟨r, _, hr⟩ := List.mem_map.mp (hwd ▸ hw)
    have : q.1 = normKey r.1 := by rw [← hw1, ← hr]
    rw [this, normKey_idem]
  have hwsP : writesOf P = P := writesOf_fixed P hPfix
  rw [writesOf_append, lastVal_append, hwsP]
  rcases List.mem_append.mp hp with hu | hn
  · -- an original entry, possibly with an updated value
    obtain ⟨q, hq, hq2⟩ := List.mem_map.mp hu
    have hK : p.1 = q.1 := by rw [← hq2]
    have hKd : p.1 ∈ keysOf d := hK ▸ List.mem_map_of_mem Prod.fst hq
    have hPnone : lastVal P p.1 = none := by
      apply lastVal_eq_none_of_not_mem
      intro hx
      exact (newPart_keys (keysOf d) wd _ (List.mem_map.mp hx).choose_spec.1).2
        (by
          obtain ⟨r, hr, hr1⟩ := List.mem_map.mp hx
          exact absurd (hr1 ▸ hKd) ((newPart_keys (keysOf d) wd r hr).2))
    rw [hPnone]
    simp only [Option.or]
    rw [lastVal_writesOf_updVals]
    rcases hlw : lastWith d p.1 with _ | r
    · simp
    · obtain ⟨hrd, hrK⟩ := lastWith_mem d p.1 r hlw
      have hvalK : lastVal wd p.1 = some r.2 := by
        rw [hwd, lastVal_writesOf, hlw]
        rfl
      have hp2 : p.2 = r.2 := by
        have : p = (q.1, (lastVal wd q.1).getD q.2) := hq2.symm
        rw [this]
        show (lastVal wd q.1).getD q.2 = r.2
        rw [← hK, hvalK]
        rfl
      rcases hlr : lastVal wd r.1 with _ | u
      · simp [hp2]
        rw [hlr]
        rfl
      · -- the last writer's own key is itself a target, hence fixed, hence p.1
        have hr1K : r.1 = p.1 := by
          rw [hwd, lastVal_writesOf] at hlr
          rcases hlw2 : lastWith d r.1 with _ | t
          · rw [hlw2] at hlr
            simp at hlr
          · obtain ⟨_, htK⟩ := lastWith_mem d r.1 t hlw2
            have : normKey r.1 = r.1 := by
              rw [← htK, normKey_idem]
            rw [← this, hrK]
        simp [hp2]
        rw [hr1K, hvalK]
        rfl
  · -- a genuinely new entry: it is the last writer to its own key
    have hlast : lastVal P p.1 = some p.2 := by
      apply lastVal_of_mem_nodup
      · exact newPart_keys_nodup (keysOf d) wd
      · exact hn
    rw [hlast]
    simp [Option.or]

/-- The second pass of `normalize_keys` writes every key it touches with the
value that key already holds, in the same order, so the dict is unchanged. -/
theorem normalizeKeys_idem_of_nodup (d : Dict) (hnd : (keysOf d).Nodup) :
    normalizeKeys (normalizeKeys d) = normalizeKeys d := by
  have hdec := applyWrites_decomp (writesOf d) d hnd
  have hndm : (keysOf (normalizeKeys d)).Nodup := by
    rw [normalizeKeys_eq_applyWrites, hdec, keysOf_append, keysOf_updVals]
    apply List.Nodup.append hnd (newPart_keys_nodup (keysOf d) (writesOf d))
    intro x hx hy
    obtain ⟨q, hq, hq1⟩ := List.mem_map.mp hy
    exact (newPart_keys (keysOf d) (writesOf d) q hq).2 (hq1 ▸ hx)
  have htargets : ∀ w ∈ writesOf (normalizeKeys d), w.1 ∈ keysOf (normalizeKeys d) := by
    intro w hw
    obtain ⟨p, hp, hp1⟩ := List.mem_map.mp hw
    rw [normalizeKeys_eq_applyWrites, hdec] at hp
    rcases List.mem_append.mp hp with hu | hn
    · obtain ⟨q, hq, hq2⟩ := List.mem_map.mp hu
      have hw1 : w.1 = normKey q.1 := by rw [← hp1, ← hq2]
      have hmem : (normKey q.1, q.2) ∈ writesOf d := List.mem_map_of_mem _ hq
      rcases newPart_target_mem (keysOf d) (writesOf d) _ hmem with hks | hnp
      · rw [normalizeKeys_eq_applyWrites, hdec, keysOf_append, keysOf_updVals, hw1]
        exact List.mem_append.mpr (Or.inl hks)
      · rw [normalizeKeys_eq_applyWrites, hdec, keysOf_append, keysOf_updVals, hw1]
        exact List.mem_append.mpr (Or.inr hnp)
    · obtain ⟨h1, _⟩ := newPart_keys (keysOf d) (writesOf d) p hn
      obtain ⟨w2, hw2, hw21⟩ := List.mem_map.mp h1
      obtain ⟨r, _, hr⟩ := List.mem_map.mp hw2
      have hfix : normKey p.1 = p.1 := by
        have : p.1 = normKey r.1 := by rw [← hw21, ← hr]
        rw [this, normKey_idem]
      rw [← hp1, hfix, normalizeKeys_eq_applyWrites, hdec, keysOf_append]
      exact List.mem_append.mpr (Or.inr (List.mem_map_of_mem Prod.fst hn))
  calc normalizeKeys (normalizeKeys d)
      = applyWrites (normalizeKeys d) (writesOf (normalizeKeys d)) :=
        normalizeKeys_eq_applyWrites _
    _ = updVals (normalizeKeys d) (writesOf (normalizeKeys d)) ++
          newPart (keysOf (normalizeKeys d)) (writesOf (normalizeKeys d)) :=
        applyWrites_decomp _ _ hndm
    _ = normalizeKeys d ++ [] := by
        rw [updVals_eq_self _ _ (normalizeKeys_entry_stable d hnd),
          newPart_nil_of_mem _ _ htargets]
    _ = normalizeKeys d := List.append_nil _

/-! ## Claim theorems -/

theorem contains_special (s : String) (h : s ∈ specialCodes) :
    specialCodes.contains s = true :=
  List.elem_iff.mpr h

theorem fdiv86400_eq_ediv (a : Int) : Int.fdiv a 86400 = a / 86400 :=
  Int.fdiv_eq_ediv a (by norm_num)

/-- Unfolding of the generic (non-special-case) branch of `classifyCourse`. -/
theorem classifyCourse_not_special (refSec : Int) (now : DT) (c : Course) (days : Int)
    (h : (specialCodes.contains (pyStrip c.code) && (days == 0)) = false) :
    classifyCourse refSec now c (some days) =
      (if Int.fdiv (refSec + days * 86400 - now.toSec) 86400 < 0 then
        some (.overdue (pyStrip c.code) c.title c.url c.enrollmentCode
          |Int.fdiv (refSec + days * 86400 - now.toSec) 86400|)
      else if 0 ≤ Int.fdiv (refSec + days * 86400 - now.toSec) 86400 ∧
          Int.fdiv (refSec + days * 86400 - now.toSec) 86400 ≤ 365 then
        some (.dueSoon (pyStrip c.code) c.title c.url c.enrollmentCode
          (Int.fdiv (refSec + days * 86400 - now.toSec) 86400)
          (fmtDay (Int.fdiv (refSec + days * 86400) 86400)))
      else none) := by
  simp only [classifyCourse, h, Bool.false_eq_true, if_false]
  split_ifs <;> first
  | rfl
  | simp_all

/-- Unfolding of one step of the course loop. -/
theorem processCourses_cons (refSec : Int) (now : DT) (get : String → Option Int)
    (c : Course) (rest : List Course) :
    processCourses refSec now get (c :: rest) =
      (match classifyCourse refSec now c (get (pyStrip c.code)) with
       | none => processCourses refSec now get rest
       | some w => match w with
         | .overdue _ _ _ _ _ =>
             (w :: (processCourses refSec now get rest).1,
              (processCourses refSec now get rest).2)
         | .dueSoon _ _ _ _ _ _ =>
             ((processCourses refSec now get rest).1,
              w :: (processCourses refSec now get rest).2)) := rfl

/-- C2: for the three designated course codes with day-offset exactly 0,
`process_course_warnings` emits a DueSoon warning anchored to December 31 of
the current year, with `days_until_due = (Dec 31 − now).days`, regardless of
the reference (extraction) date; the generic due-date branch is not used. -/
theorem c2_special_codes_due_dec31 (refSec : Int) (now : DT) (c : Course)
    (h : pyStrip c.code ∈ specialCodes) :
    classifyCourse refSec now c (some 0) =
      some (.dueSoon (pyStrip c.code) c.title c.url c.enrollmentCode
        (Int.fdiv (daysFromCivil now.year 12 31 * 86400 - now.toSec) 86400)
        (fmtDay (daysFromCivil now.year 12 31))) := by
  have hc : (specialCodes.contains (pyStrip c.code) && ((0 : Int) == 0)) = true := by
    rw [contains_special _ h]
    rfl
  simp only [classifyCourse, hc, if_true]

/-- C2 witness: the Suicide Prevention course with offset 0 on 10/11/2025,
extraction date 10/01/2025. -/
theorem c2_special_codes_due_dec31_witness :
    classifyCourse (daysFromCivil 2025 10 1 * 86400) ⟨2025, 10, 11, 0⟩
      ⟨"SP_100643", "Suicide Prevention", "u", "e"⟩ (some 0) =
      some (.dueSoon "SP_100643" "Suicide Prevention" "u" "e"
        (Int.fdiv (daysFromCivil 2025 12 31 * 86400 - (DT.mk 2025 10 11 0).toSec) 86400)
        (fmtDay (daysFromCivil 2025 12 31))) :=
  c2_special_codes_due_dec31 (daysFromCivil 2025 10 1 * 86400) ⟨2025, 10, 11, 0⟩
    ⟨"SP_100643", "Suicide Prevention", "u", "e"⟩ (by decide)

/-- C3: the claim (and the repository's own tests
`test_missing_training_csv_raises_error` / `test_invalid_csv_raises_error`)
require a `MemberDataError` when the training CSV is missing, but
`MemberDatabase.load` raises a plain `FileNotFoundError` — the code never
imports the exceptions module. -/
theorem c3_missing_training_raises_filenotfound :
    memberDatabaseLoadCheck false "/nonexistent/path/training.csv" =
      Except.error (.fileNotFoundError
        "Training database not found: /nonexistent/path/training.csv") ∧
    ∀ msg : String, memberDatabaseLoadCheck false "/nonexistent/path/training.csv" ≠
      Except.error (.memberDataError msg) := by
  constructor
  · rfl
  · intro msg h
    simp [memberDatabaseLoadCheck] at h

/-- C7 counterexample: in the spec's scenario (`PAWR_810015` offset −10,
extraction 10/01/2025, evaluated 10/11/2025 at midnight) the course is
overdue by 20 days, not the claimed 10. -/
theorem c7_counterexample :
    processCourses (daysFromCivil 2025 10 1 * 86400) ⟨2025, 10, 11, 0⟩
      (fun code => if code = "PAWR_810015" then some (-10) else none)
      [⟨"PAWR_810015", "t", "u", "e"⟩] =
      ([.overdue "PAWR_810015" "t" "u" "e" 20], []) ∧ (20 : Int) ≠ 10 := by
  constructor
  · decide
  · decide

/-- C7 (amended): in the scenario the course appears in `courses_overdue`,
with `days_overdue = 20` when evaluated at midnight of 10/11/2025 and 21 at
any later instant of that day (never 10). -/
theorem c7_overdue_scenario (title url ec : String) (sod : Int)
    (h0 : 0 ≤ sod) (h1 : sod < 86400) :
    processCourses (daysFromCivil 2025 10 1 * 86400) ⟨2025, 10, 11, sod⟩
      (fun code => if code = "PAWR_810015" then some (-10) else none)
      [⟨"PAWR_810015", title, url, ec⟩] =
      ([.overdue "PAWR_810015" title url ec (if sod = 0 then 20 else 21)], []) := by
  have hcls := classifyCourse_not_special (daysFromCivil 2025 10 1 * 86400)
    ⟨2025, 10, 11, sod⟩ ⟨"PAWR_810015", title, url, ec⟩ (-10)
    (show (specialCodes.contains (pyStrip "PAWR_810015") && ((-10 : Int) == 0)) = false
      by decide)
  have hsec : (DT.mk 2025 10 11 sod).toSec = 20372 * 86400 + sod := by
    show daysFromCivil 2025 10 11 * 86400 + sod = _
    rw [show daysFromCivil 2025 10 11 = 20372 from by decide]
  have hdft : Int.fdiv (daysFromCivil 2025 10 1 * 86400 + -10 * 86400 -
      (DT.mk 2025 10 11 sod).toSec) 86400 = if sod = 0 then -20 else -21 := by
    rw [hsec, show daysFromCivil 2025 10 1 = 20362 from by decide, fdiv86400_eq_ediv]
    by_cases hs : sod = 0
    · rw [if_pos hs]
      omega
    · rw [if_neg hs]
      omega
  rw [hdft] at hcls
  rw [processCourses_cons]
  have hg : (if pyStrip (Course.mk "PAWR_810015" title url ec).code = "PAWR_810015"
      then some (-10 : Int) else none) = some (-10) := rfl
  rw [hg, hcls]
  by_cases hs : sod = 0
  · rw [if_pos hs, if_pos hs, if_pos (show (-20 : Int) < 0 by norm_num)]
    rfl
  · rw [if_neg hs, if_neg hs, if_pos (show (-21 : Int) < 0 by norm_num)]
    rfl

/-- C7 witness: evaluated at 10:00 on 10/11/2025 the course is overdue by
21 days. -/
theorem c7_overdue_scenario_witness :
    processCourses (daysFromCivil 2025 10 1 * 86400) ⟨2025, 10, 11, 36000⟩
      (fun code => if code = "PAWR_810015" then some (-10) else none)
      [⟨"PAWR_810015", "t", "u", "e"⟩] =
      ([.overdue "PAWR_810015" "t" "u" "e" (if (36000 : Int) = 0 then 20 else 21)], []) :=
  c7_overdue_scenario "t" "u" "e" 36000 (by decide) (by decide)

/-- C1 counterexample: for `SP_100643` with offset 0, extraction date
10/01/2025 and today 10/11/2025, `due_date − today = −10 < 0`, yet the
course is emitted DueSoon (the special-case branch), not Overdue. -/
theorem c1_counterexample :
    Int.fdiv ((daysFromCivil 2025 10 1 + 0) * 86400 - (DT.mk 2025 10 11 0).toSec) 86400 < 0 ∧
    classifyCourse (daysFromCivil 2025 10 1 * 86400) ⟨2025, 10, 11, 0⟩
      ⟨"SP_100643", "t", "u", "e"⟩ (some 0) =
      some (.dueSoon "SP_100643" "t" "u" "e" 81 "12/31/2025") := by
  refine ⟨by decide, by decide⟩

/-- C1 (amended): for every course row whose stripped code / offset pair is
not one of the three designated codes with offset 0, with reference day `E`
and `dft := ((E + d) * 86400 − now) fdiv 86400`: the course is emitted
Overdue iff `dft < 0`, with `days_overdue = |dft|`; DueSoon iff
`0 ≤ dft ≤ 365`, with `days_until_due = dft` and due date `E + d`; and no
warning iff `dft > 365` — exactly one of the three holds by trichotomy. -/
theorem c1_generic_course_classification (E days : Int) (now : DT) (c : Course)
    (h : ¬(pyStrip c.code ∈ specialCodes ∧ days = 0)) :
    ((classifyCourse (E * 86400) now c (some days) =
        some (.overdue (pyStrip c.code) c.title c.url c.enrollmentCode
          |Int.fdiv ((E + days) * 86400 - now.toSec) 86400|) ↔
      Int.fdiv ((E + days) * 86400 - now.toSec) 86400 < 0) ∧
     (classifyCourse (E * 86400) now c (some days) =
        some (.dueSoon (pyStrip c.code) c.title c.url c.enrollmentCode
          (Int.fdiv ((E + days) * 86400 - now.toSec) 86400) (fmtDay (E + days))) ↔
      (0 ≤ Int.fdiv ((E + days) * 86400 - now.toSec) 86400 ∧
       Int.fdiv ((E + days) * 86400 - now.toSec) 86400 ≤ 365)) ∧
     (classifyCourse (E * 86400) now c (some days) = none ↔
      365 < Int.fdiv ((E + days) * 86400 - now.toSec) 86400)) := by
  have hb : (specialCodes.contains (pyStrip c.code) && (days == 0)) = false := by
    by_cases hm : pyStrip c.code ∈ specialCodes
    · have hd : days ≠ 0 := fun hd => h ⟨hm, hd⟩
      have hbe : (days == 0) = false := by simp [hd]
      rw [hbe, Bool.and_false]
    · have hc : specialCodes.contains (pyStrip c.code) = false :=
        Bool.eq_false_iff.mpr (fun hc => hm (List.elem_iff.mp hc))
      rw [hc, Bool.false_and]
  have hcls := classifyCourse_not_special (E * 86400) now c days hb
  have harith : E * 86400 + days * 86400 = (E + days) * 86400 := by ring
  rw [harith] at hcls
  have hfmt : Int.fdiv ((E + days) * 86400) 86400 = E + days :=
    Int.mul_fdiv_cancel _ (by norm_num)
  rw [hfmt] at hcls
  rw [hcls]
  by_cases h1 : Int.fdiv ((E + days) * 86400 - now.toSec) 86400 < 0
  · rw [if_pos h1]
    exact ⟨iff_of_true rfl h1,
      iff_of_false (by simp) (by omega),
      iff_of_false (by simp) (by omega)⟩
  · rw [if_neg h1]
    by_cases h2 : 0 ≤ Int.fdiv ((E + days) * 86400 - now.toSec) 86400 ∧
        Int.fdiv ((E + days) * 86400 - now.toSec) 86400 ≤ 365
    · rw [if_pos h2]
      exact ⟨iff_of_false (by simp) (by omega),
        iff_of_true rfl h2,
        iff_of_false (by simp) (by omega)⟩
    · rw [if_neg h2]
      exact ⟨iff_of_false (by simp) h1,
        iff_of_false (by simp) h2,
        iff_of_true rfl (by omega)⟩

/-- C1 witness: `PAWR_810015` with offset 100 from extraction 10/01/2025,
evaluated at midnight 10/11/2025, is emitted DueSoon in 90 days. -/
theorem c1_generic_course_classification_witness :
    classifyCourse (daysFromCivil 2025 10 1 * 86400) ⟨2025, 10, 11, 0⟩
      ⟨"PAWR_810015", "t", "u", "e"⟩ (some 100) =
      some (.dueSoon "PAWR_810015" "t" "u" "e" 90 "01/09/2026") :=
  ((c1_generic_course_classification (daysFromCivil 2025 10 1) 100 ⟨2025, 10, 11, 0⟩
    ⟨"PAWR_810015", "t", "u", "e"⟩ (by decide)).2.1).mpr (by decide)

/-- C4 counterexample: `"invalid-date"` does not parse as `MM/DD/YYYY`, yet
the output `extraction_date` is the invalid input string itself, not today's
formatted date. -/
theorem c4_counterexample :
    parseMMDDYYYY "invalid-date" = none ∧
    dget (addDateContext [] (some "invalid-date") ⟨2025, 10, 11, 0⟩) "extraction_date" =
      some (.str "invalid-date") ∧
    (DT.mk 2025 10 11 0).fmt ≠ "invalid-date" := by
  refine ⟨by decide, by decide, by decide⟩

/-- C4 (amended): `add_date_context` echoes the supplied `extraction_date`
string verbatim whenever it is non-empty — even when it fails to parse —
and writes today's formatted date only when the argument is absent or the
empty string. -/
theorem c4_extraction_date_echo (data : Dict) (s : String) (now : DT) (h : s ≠ "") :
    dget (addDateContext data (some s) now) "extraction_date" = some (.str s) ∧
    dget (addDateContext data none now) "extraction_date" = some (.str now.fmt) ∧
    dget (addDateContext data (some "") now) "extraction_date" = some (.str now.fmt) := by
  have hne : ("extraction_plus_365" : String) ≠ "extraction_date" := by decide
  refine ⟨?_, ?_, ?_⟩ <;>
    simp only [addDateContext] <;>
    rw [dget_dset, if_neg hne, dget_dset, if_pos rfl] <;>
    simp [h]

/-- C4 witness: concrete instance on 10/11/2025 with the unparseable string
`"not-a-date"`. -/
theorem c4_extraction_date_echo_witness :
    dget (addDateContext [] (some "not-a-date") ⟨2025, 10, 11, 0⟩) "extraction_date" =
      some (.str "not-a-date") ∧
    dget (addDateContext [] none ⟨2025, 10, 11, 0⟩) "extraction_date" =
      some (.str (DT.mk 2025 10 11 0).fmt) ∧
    dget (addDateContext [] (some "") ⟨2025, 10, 11, 0⟩) "extraction_date" =
      some (.str (DT.mk 2025 10 11 0).fmt) :=
  c4_extraction_date_echo [] "not-a-date" ⟨2025, 10, 11, 0⟩ (by decide)

/-- C5: for a non-exempt member whose looked-up inspection value passes the
guard and parses as `MM/DD/YYYY`, `needs_uniform_inspection` is true iff the
parsed date is strictly before January 1 of the current year. -/
theorem c5_inspection_before_year_start (data : Dict) (now : DT) (v : PyVal) (m d y : Int)
    (hv : getOr data "uniform_inspection" "Uniform Inspection" = some v)
    (hex : isExemptVal (getOr data "uniform_exempt" "Uniform Exempt") = false)
    (hg : inspGuard v = true)
    (hp : parseMMDDYYYY (pyStrip (pyStr v)) = some (m, d, y)) :
    dget (checkUniformInspection data now) "needs_uniform_inspection" =
      some (.bool (decide (daysFromCivil y m d < daysFromCivil now.year 1 1))) := by
  simp only [checkUniformInspection, hv, hex, hg, hp, Bool.false_eq_true, if_false,
    if_true]
  rw [dget_dset, if_pos rfl]

/-- C5 witness: inspection date 2/20/2024, not exempt, evaluated in 2025:
renewal needed. -/
theorem c5_inspection_before_year_start_witness :
    dget (checkUniformInspection
        [("uniform_inspection", .str "2/20/2024"), ("uniform_exempt", .int 0)]
        ⟨2025, 10, 11, 0⟩)
      "needs_uniform_inspection" =
      some (.bool (decide (daysFromCivil 2024 2 20 < daysFromCivil 2025 1 1))) :=
  c5_inspection_before_year_start
    [("uniform_inspection", .str "2/20/2024"), ("uniform_exempt", .int 0)]
    ⟨2025, 10, 11, 0⟩ (.str "2/20/2024") 2 20 2024
    (by decide) (by decide) (by decide) (by decide)

/-- C6 counterexample: with the normalized key `uniform_exempt` holding the
falsy value `0` and the original key `Uniform Exempt` holding `"1"`, the
evaluation uses the original key's value: the member is marked exempt, where
the claim says the normalized value `0` (not exempt) would be used. -/
theorem c6_counterexample :
    dget (checkUniformInspection
        [("uniform_exempt", .int 0), ("Uniform Exempt", .str "1")] ⟨2025, 10, 11, 0⟩)
      "uniform_exempt" = some (.bool true) ∧
    getOr [("uniform_exempt", PyVal.int 0), ("Uniform Exempt", .str "1")]
      "uniform_exempt" "Uniform Exempt" = some (.str "1") ∧
    PyVal.str "1" ≠ .int 0 := by
  refine ⟨by decide, by decide, by decide⟩

/-- C6 (amended): when both keys are present, the normalized key's value is
used iff it is truthy; when it is falsy (`0`, `""`, `None`), the
original-cased key's value is used instead. -/
theorem c6_lookup_precedence_truthy (data : Dict) (k1 k2 : String) (a b : PyVal)
    (h1 : dget data k1 = some a) (h2 : dget data k2 = some b) :
    getOr data k1 k2 = (if pyTruthy a then some a else some b) := by
  simp only [getOr, h1, h2]

/-- C6 witness: truthy normalized value wins; falsy normalized value defers
to the original key. -/
theorem c6_lookup_precedence_truthy_witness :
    getOr [("uniform_exempt", PyVal.int 0), ("Uniform Exempt", .str "1")]
      "uniform_exempt" "Uniform Exempt" =
      (if pyTruthy (.int 0) then some (PyVal.int 0) else some (.str "1")) :=
  c6_lookup_precedence_truthy
    [("uniform_exempt", PyVal.int 0), ("Uniform Exempt", .str "1")]
    "uniform_exempt" "Uniform Exempt" (.int 0) (.str "1") (by decide) (by decide)

/-- C9: `normalize_keys` is idempotent — re-normalizing an
already-normalized mapping adds and changes nothing, because every key the
second pass writes is already present and holds the value being written. -/
theorem c9_normalize_keys_idempotent (d : Dict) (hnd : (keysOf d).Nodup) :
    normalizeKeys (normalizeKeys d) = normalizeKeys d :=
  normalizeKeys_idem_of_nodup d hnd

/-- C9 witness: a concrete member record round-trips. -/
theorem c9_normalize_keys_idempotent_witness :
    normalizeKeys (normalizeKeys
        [("First Name", PyVal.str "John"), ("Member #", .str "5"), ("a_b", .int 1),
         ("A/B", .int 2)]) =
      normalizeKeys
        [("First Name", PyVal.str "John"), ("Member #", .str "5"), ("a_b", .int 1),
         ("A/B", .int 2)] :=
  c9_normalize_keys_idempotent _ (by decide)

theorem dget_isSome_normalizeKeys (d : Dict) (k : String)
    (h : (dget d k).isSome = true) : (dget (normalizeKeys d) k).isSome = true := by
  rw [normalizeKeys_eq_applyWrites, dget_applyWrites]
  cases lastVal (writesOf d) k <;> simp [Option.or, h]

theorem dget_isSome_addDateContext (d : Dict) (extraction : Option String) (now : DT)
    (k : String) (h : (dget d k).isSome = true) :
    (dget (addDateContext d extraction now) k).isSome = true := by
  simp only [addDateContext]
  repeat apply dget_isSome_dset
  exact h

theorem dget_isSome_processNameFormatting (d : Dict) (k : String)
    (h : (dget d k).isSome = true) :
    (dget (processNameFormatting d) k).isSome = true := by
  simp only [processNameFormatting]
  repeat apply dget_isSome_dset
  exact h

theorem dget_isSome_checkUniformInspection (d : Dict) (now : DT) (k : String)
    (h : (dget d k).isSome = true) :
    (dget (checkUniformInspection d now) k).isSome = true := by
  simp only [checkUniformInspection]
  repeat apply dget_isSome_dset
  exact h

theorem dget_isSome_processCourseWarningsDict (d : Dict) (table : CourseTable)
    (extraction : Option String) (now : DT) (k : String)
    (h : (dget d k).isSome = true) :
    (dget (processCourseWarningsDict d table extraction now) k).isSome = true := by
  simp only [processCourseWarningsDict]
  repeat apply dget_isSome_dset
  exact h

/-- C10: every pipeline stage, and their composition
`normalize_template_context`, only extends the context: a key present in
the input mapping is present in the output mapping. -/
theorem c10_stages_only_extend (data : Dict) (table : CourseTable)
    (extraction : Option String) (now : DT) (k : String)
    (h : (dget data k).isSome = true) :
    (dget (normalizeKeys data) k).isSome = true ∧
    (dget (addDateContext data extraction now) k).isSome = true ∧
    (dget (processNameFormatting data) k).isSome = true ∧
    (dget (checkUniformInspection data now) k).isSome = true ∧
    (dget (processCourseWarningsDict data table extraction now) k).isSome = true ∧
    (dget (normalizeTemplateContext data table extraction now) k).isSome = true := by
  refine ⟨dget_isSome_normalizeKeys data k h,
    dget_isSome_addDateContext data extraction now k h,
    dget_isSome_processNameFormatting data k h,
    dget_isSome_checkUniformInspection data now k h,
    dget_isSome_processCourseWarningsDict data table extraction now k h, ?_⟩
  unfold normalizeTemplateContext
  exact dget_isSome_processCourseWarningsDict _ table extraction now k
    (dget_isSome_checkUniformInspection _ now k
      (dget_isSome_processNameFormatting _ k
        (dget_isSome_addDateContext _ extraction now k
          (dget_isSome_normalizeKeys data k h))))

/-- C10 witness: the key `First Name` survives the whole pipeline. -/
theorem c10_stages_only_extend_witness :
    (dget (normalizeKeys [("First Name", PyVal.str "JANE")]) "First Name").isSome = true ∧
    (dget (addDateContext [("First Name", PyVal.str "JANE")] none ⟨2025, 10, 11, 0⟩)
      "First Name").isSome = true ∧
    (dget (processNameFormatting [("First Name", PyVal.str "JANE")])
      "First Name").isSome = true ∧
    (dget (checkUniformInspection [("First Name", PyVal.str "JANE")] ⟨2025, 10, 11, 0⟩)
      "First Name").isSome = true ∧
    (dget (processCourseWarningsDict [("First Name", PyVal.str "JANE")] ⟨false, []⟩
      none ⟨2025, 10, 11, 0⟩) "First Name").isSome = true ∧
    (dget (normalizeTemplateContext [("First Name", PyVal.str "JANE")] ⟨false, []⟩
      none ⟨2025, 10, 11, 0⟩) "First Name").isSome = true :=
  c10_stages_only_extend [("First Name", PyVal.str "JANE")] ⟨false, []⟩ none
    ⟨2025, 10, 11, 0⟩ "First Name" (by decide)

/-- C8 counterexample: Python's `str.isdigit()` accepts Unicode digits, so
the string of the seven Arabic-Indic digits U+0660–U+0666 — which is not a
string of ASCII digits — is pretty-formatted rather than mapped to `None`,
falsifying the claim's "every other input yields null". -/
theorem c8_counterexample :
    prettifyUnitNumber (.str "٠١٢٣٤٥٦") = some "٠١٢-٣٤-٥٦" ∧
    ("٠١٢٣٤٥٦".data.all Char.isDigit) = false := by
  refine ⟨by decide, by decide⟩

/-- C8 (amended): `_prettify_unit_number` maps a string whose stripped form
is exactly 7 characters accepted by `str.isdigit()` — ASCII digits or other
Unicode digits — to `chars[0:3]-chars[3:5]-chars[5:7]`, and everything else
(wrong length, a character `isdigit()` rejects, non-string) to `None`
without raising. -/
theorem c8_prettify_unit_number :
    (∀ s : String, (pyStrip s).length = 7 → ((pyStrip s).data.all pyIsDigit) = true →
      prettifyUnitNumber (.str s) =
        some (String.mk ((pyStrip s).data.take 3) ++ "-" ++
          String.mk (((pyStrip s).data.drop 3).take 2) ++ "-" ++
          String.mk (((pyStrip s).data.drop 5).take 2))) ∧
    (∀ v : PyVal,
      (∀ s : String, v = .str s →
        ¬((pyStrip s).length = 7 ∧ ((pyStrip s).data.all pyIsDigit) = true)) →
      prettifyUnitNumber v = none) := by
  constructor
  · intro s h7 hdig
    simp only [prettifyUnitNumber]
    rw [if_pos]
    rw [h7, hdig]
    rfl
  · intro v hv
    match v with
    | .str s =>
      have := hv s rfl
      simp only [prettifyUnitNumber]
      rw [if_neg]
      intro hc
      apply this
      constructor
      · have := of_decide_eq_true (Bool.and_elim_left hc)
        omega
      · exact Bool.and_elim_right hc
    | .int n => rfl
    | .bool b => rfl
    | .pyNone => rfl
    | .warningList ws => rfl

/-- C8 witness: the documented example `"0131102"` formats to `013-11-02`,
and a non-string yields `None`. -/
theorem c8_prettify_unit_number_witness :
    prettifyUnitNumber (.str "0131102") = some "013-11-02" ∧
    prettifyUnitNumber (.int 131102) = none := by
  constructor
  · have h := c8_prettify_unit_number.1 "0131102" (by decide) (by decide)
    rw [h]
    decide
  · exact c8_prettify_unit_number.2 (.int 131102) (by intro s h; cases h)

end AuxCT
